import Mathlib

/-!
Verification of the `kvs` log-structured key-value store.

The development shallowly embeds the Rust sources:
* `src/kvs/store.rs` — the storage engine (`KvStore`): header handling in
  `open`, the append path `writeback`, the read path `fetch`, and
  `compaction`.
* `src/kvs/server.rs` — the per-connection request handler `handle_stream`
  and the accept loop `start`.
* `src/kvs/client.rs` — the client-side reply-status mapping.

Files are modelled as association lists from byte offsets to parsed
records: reading at an offset parses successfully exactly when the offset
is the start of a record that was written there.  `HashMap<String, u64>`
is modelled as an association list with unique keys.  Byte lengths of
bson-encoded records are computed from the bson framing (documents are
length-prefixed), so offsets advance exactly as in the Rust code.
-/

namespace Kvs

/-- Error kinds from `src/kvs/errors.rs` (`enum KvsError`).  Payloads that
are foreign error objects (io, bson, sled, ...) are dropped; they play no
role in any control flow modelled here. -/
inductive KvsError where
  | IOError
  | KeyNotExist (key : String)
  | InvalidDataEntry
  | SerializationError
  | DeserializationError
  | UnsupportedEngine
  | InvalidDatabaseFormat
  | IncompatibleDatabaseVersion (found expected : Nat)
  | SystemTimeError
  | UnknownProtocol
  | ServerError
  | InvalidAddress
  | SledError
  deriving DecidableEq, Repr

/-- Data-file records, `enum KvsEntries` in `store.rs`. -/
inductive KvsEntries where
  | SET (key value : String)
  | DELETE (key : String)
  deriving DecidableEq, Repr

/-- Database file header, `struct KvHeader` in `store.rs`.  All four
fields are `u64` in the source. -/
structure KvHeader where
  build_number : Nat
  last_open : Nat
  next_compaction_size : Nat
  flags : Nat
  deriving DecidableEq, Repr

/-- `bson::to_vec(&entry).len()`: a bson document is a 4-byte length,
the elements, and a trailing zero byte.  `SET(k, v)` serializes as
`{"SET": [k, v]}` and `DELETE(k)` as `{"DELETE": k}`, giving the sizes
below (string payloads count in UTF-8 bytes). -/
def entrySize : KvsEntries → Nat
  | .SET k v => 31 + k.utf8ByteSize + v.utf8ByteSize
  | .DELETE k => 18 + k.utf8ByteSize

/-- `bson::to_vec(&header).len()`: the header document has four int64
fields with fixed names, hence a fixed encoded size. -/
def HEADER_SIZE : Nat := 91

/-- `KvStore::BUILD_NUMBER` (store.rs line 172). -/
def BUILD_NUMBER : Nat := 1200

/-- `KvStore::MIN_COMPACTION_THRESHOLD` (store.rs line 173). -/
def MIN_COMPACTION_THRESHOLD : Nat := 32768

/-! ### Association lists

`HashMap` (the in-memory index, and the temporary map built during
compaction) is modelled as an association list with unique keys; files
are association lists from offsets to the records written there. -/

/-- `HashMap::get`: value of the first (in a well-formed map, the only)
binding of `k`. -/
def lookupAL {κ α : Type} [DecidableEq κ] (k : κ) : List (κ × α) → Option α
  | [] => none
  | (k', v) :: t => if k' = k then some v else lookupAL k t

/-- `HashMap::insert`: replace the binding of `k` if present, otherwise
append a new binding. -/
def insertAL {κ α : Type} [DecidableEq κ] (k : κ) (v : α) :
    List (κ × α) → List (κ × α)
  | [] => [(k, v)]
  | (k', v') :: t => if k' = k then (k, v) :: t else (k', v') :: insertAL k v t

/-- `HashMap::remove`: drop the binding of `k`. -/
def removeAL {κ α : Type} [DecidableEq κ] (k : κ) :
    List (κ × α) → List (κ × α)
  | [] => []
  | (k', v') :: t => if k' = k then t else (k', v') :: removeAL k t

/-! ### The storage engine (`src/kvs/store.rs`)

The shared mutable state of `KvStore` is flattened into one record: the
in-memory `index` (`HashMap<String, u64>`), the data-file contents `log`
(offset of each record start, paired with the record written there), the
atomic `db_offset`, and `header.next_compaction_size`.  The operations
below are sequential transcriptions of the corresponding Rust methods;
in a sequential execution the offset reserved by `fetch_add` is the end
of the file, so the file write is an append. -/

structure KvStoreState where
  index : List (String × Nat)
  log : List (Nat × KvsEntries)
  dbOffset : Nat
  nextCompactionSize : Nat
  deriving DecidableEq, Repr

namespace KvStore

/-- `KvStore::writeback` (store.rs lines 231-257): reserve `offset`
(= `db_offset`), advance `db_offset` by the serialized length, write the
record, then update the index under the monotonic-offset guard
`if *offset_ > offset { break }`. -/
def writeback (entry : KvsEntries) (s : KvStoreState) : KvStoreState :=
  let offset := s.dbOffset
  let index :=
    match entry with
    | .SET key _ =>
      match lookupAL key s.index with
      | some offset_ => if offset_ > offset then s.index else insertAL key offset s.index
      | none => insertAL key offset s.index
    | .DELETE key =>
      match lookupAL key s.index with
      | some offset_ => if offset_ > offset then s.index else removeAL key s.index
      | none => removeAL key s.index
  { index := index
    log := s.log ++ [(offset, entry)]
    dbOffset := offset + entrySize entry
    nextCompactionSize := s.nextCompactionSize }

/-- `KvStore::fetch` (store.rs lines 260-273): index lookup, then parse
the record at the stored offset; anything other than a `SET` of the same
key is `InvalidDataEntry`. -/
def fetch (key : String) (s : KvStoreState) : Except KvsError (Option String) :=
  match lookupAL key s.index with
  | some offset =>
    match lookupAL offset s.log with
    | some (.SET key_ value) =>
      if key = key_ then .ok (some value) else .error .InvalidDataEntry
    | _ => .error .InvalidDataEntry
  | none => .ok none

/-- The compaction scan (store.rs lines 196-202): for each `(key, offset)`
of the index, parse the record at `offset`.  A `SET` with the same key is
collected into the temporary map `entries`; a `SET` with a different key
aborts with `InvalidDataEntry`; any other parse result (a `DELETE`, or a
failure to parse) falls through the `if let Ok(KvsEntries::SET(..))` and
is skipped. -/
def collectEntries (log : List (Nat × KvsEntries))
    (entries : List (String × String)) :
    List (String × Nat) → Except KvsError (List (String × String))
  | [] => .ok entries
  | (key, offset) :: rest =>
    match lookupAL offset log with
    | some (.SET key_ value) =>
      if key_ = key then collectEntries log (insertAL key_ value entries) rest
      else .error .InvalidDataEntry
    | _ => collectEntries log entries rest

/-- The compaction rewrite loop (store.rs lines 212-217): starting from
the offset just after the rewritten header, append one `SET` record per
collected pair and point the (cleared) index at the new offsets. -/
def rewriteEntries (index : List (String × Nat)) (log : List (Nat × KvsEntries))
    (offset : Nat) :
    List (String × String) → List (String × Nat) × List (Nat × KvsEntries) × Nat
  | [] => (index, log, offset)
  | (key, value) :: rest =>
    let entry := KvsEntries.SET key value
    rewriteEntries (insertAL key offset index) (log ++ [(offset, entry)])
      (offset + entrySize entry) rest

/-- `KvStore::compaction` (store.rs lines 185-228): re-check the
threshold, scan the index, truncate the file, rewrite header and live
records, set `next_compaction_size` from `self.db_offset` — which still
holds the pre-compaction offset, since it is only reset afterwards
(line 225) — and finally reset `db_offset` to the new end of file. -/
def compaction (s : KvStoreState) : Except KvsError KvStoreState :=
  if s.dbOffset < s.nextCompactionSize then .ok s
  else
    match collectEntries s.log [] s.index with
    | .error e => .error e
    | .ok entries =>
      let r := rewriteEntries [] [] HEADER_SIZE entries
      .ok { index := r.1
            log := r.2.1
            nextCompactionSize := max (s.dbOffset * 2) MIN_COMPACTION_THRESHOLD
            dbOffset := r.2.2 }

/-- `KvStore::check_compaction` (store.rs lines 175-182). -/
def check_compaction (s : KvStoreState) : Except KvsError KvStoreState :=
  if s.nextCompactionSize ≤ s.dbOffset then compaction s else .ok s

/-- `KvsEngine::set for KvStore` (store.rs lines 74-79). -/
def set (key value : String) (s : KvStoreState) : Except KvsError KvStoreState :=
  check_compaction (writeback (.SET key value) s)

/-- `KvsEngine::get for KvStore` (store.rs lines 82-84). -/
def get (key : String) (s : KvStoreState) : Except KvsError (Option String) :=
  fetch key s

/-- `KvsEngine::remove for KvStore` (store.rs lines 87-92): fails with
`KeyNotExist` when the key is absent from the index, otherwise appends a
`DELETE` record. -/
def remove (key : String) (s : KvStoreState) : Except KvsError KvStoreState :=
  match lookupAL key s.index with
  | none => .error (.KeyNotExist key)
  | some _ => check_compaction (writeback (.DELETE key) s)

/-- State of the engine returned by `KvsEngine::open` on a fresh (empty)
path (store.rs lines 95-168): empty index, a file holding only the fresh
header, `db_offset` at the end of the header, and the header's
`next_compaction_size = MIN_COMPACTION_THRESHOLD`. -/
def openFresh : KvStoreState :=
  { index := []
    log := []
    dbOffset := HEADER_SIZE
    nextCompactionSize := MIN_COMPACTION_THRESHOLD }

/-- The header branch of `KvsEngine::open` (store.rs lines 110-129): a
non-empty data file must parse as a header (`parsed = none` models a
bson parse failure) or open fails with `InvalidDatabaseFormat`; an empty
file gets a fresh header.  Either way `last_open` and `flags` are then
overwritten and the header rewritten.  No comparison of
`header.build_number` with `KvStore::BUILD_NUMBER` occurs anywhere in
`open`. -/
def openHeader (now : Nat) (fileLen : Nat) (parsed : Option KvHeader) :
    Except KvsError KvHeader :=
  match (if fileLen ≠ 0 then
          match parsed with
          | some h => Except.ok h
          | none => Except.error KvsError.InvalidDatabaseFormat
        else
          Except.ok { build_number := BUILD_NUMBER
                      last_open := 0
                      next_compaction_size := MIN_COMPACTION_THRESHOLD
                      flags := 0x1 }) with
  | .error e => .error e
  | .ok h => .ok { h with last_open := now, flags := 0x1 }

/-- The index-loading decision of `KvsEngine::open` (store.rs lines
126-152): the shortcut branch reads the index file when it exists, is
non-empty, and `header.flags & 0x1 == 0` — but the test runs on the
header value after line 127 already executed `header.flags = 0x1`. -/
def openReadsIndexFile (header : KvHeader) (now : Nat)
    (indexFileExists : Bool) (indexFileLen : Nat) : Bool :=
  let header := { header with last_open := now, flags := 0x1 }
  indexFileExists && indexFileLen != 0 && (header.flags &&& 0x1 == 0)

end KvStore

/-! ### The server (`src/kvs/server.rs`)

`KvsServer` holds a `Box<dyn KvsEngine>`; the backend is therefore
modelled as an explicit record of the three trait operations over an
abstract state type.  `bson::from_slice::<KvsCmdRequest>` on the received
bytes is modelled by its outcome: `none` for a parse failure, `some req`
for a successful parse. -/

/-- Request record, `struct KvsCmdRequest` in server.rs. -/
structure KvsCmdRequest where
  cmd : String
  argument : List String
  deriving DecidableEq, Repr

/-- Reply status, `enum KvsServerReplyStatus` in server.rs. -/
inductive KvsServerReplyStatus where
  | Success
  | InvalidArguments
  | InvalidCommand
  | KeyNotFound
  | ServerInternalError
  deriving DecidableEq, Repr

/-- Reply record, `struct KvsServerReply` in server.rs. -/
structure KvsServerReply where
  result : Option String
  status : KvsServerReplyStatus
  deriving DecidableEq, Repr

/-- The `KvsEngine` trait (`src/kvs/kvs.rs`), as used through
`Box<dyn KvsEngine>`: a state type `σ` with the three operations the
server dispatches to. -/
structure KvsEngineM (σ : Type) where
  set : σ → String → String → Except KvsError σ
  get : σ → String → Except KvsError (Option String)
  remove : σ → String → Except KvsError σ

namespace KvsServer

/-- `KvsServer::handle_stream` (server.rs lines 85-192), as a function of
the parse outcome of the received bytes.  Returns the new backend state,
the new `need_termination` flag, and the reply written to the stream
(`none` when no reply is sent).  `GET` uses the `?` operator on the
backend call, so a backend error becomes an error of `handle_stream`
itself; `SET` and `RM`/`REMOVE`/`DELETE` match on the backend result and
turn errors into replies. -/
def handle_stream {σ : Type} (E : KvsEngineM σ) (s : σ) (needTermination : Bool)
    (request : Option KvsCmdRequest) :
    Except KvsError (σ × Bool × Option KvsServerReply) :=
  match request with
  | none => .ok (s, needTermination, none)
  | some req =>
    if req.cmd = "GET" then
      if req.argument.length = 1 then
        match E.get s (req.argument.headD "") with
        | .ok (some result) => .ok (s, needTermination, some ⟨some result, .Success⟩)
        | .ok none => .ok (s, needTermination, some ⟨none, .Success⟩)
        | .error e => .error e
      else
        .ok (s, needTermination, some
          ⟨some ("`GET` command required 1 argument, provided " ++
            toString req.argument.length), .InvalidArguments⟩)
    else if req.cmd = "SET" then
      if req.argument.length = 2 then
        match E.set s (req.argument.headD "") ((req.argument.drop 1).headD "") with
        | .ok s' => .ok (s', needTermination, some ⟨none, .Success⟩)
        | .error (.KeyNotExist _) => .ok (s, needTermination, some ⟨none, .KeyNotFound⟩)
        | .error _ => .ok (s, needTermination, some ⟨none, .ServerInternalError⟩)
      else
        .ok (s, needTermination, some
          ⟨some ("`GET` command required 2 argument, provided " ++
            toString req.argument.length), .InvalidArguments⟩)
    else if req.cmd = "RM" ∨ req.cmd = "REMOVE" ∨ req.cmd = "DELETE" then
      if req.argument.length = 1 then
        match E.remove s (req.argument.headD "") with
        | .ok s' => .ok (s', needTermination, some ⟨none, .Success⟩)
        | .error (.KeyNotExist _) => .ok (s, needTermination, some ⟨none, .KeyNotFound⟩)
        | .error _ => .ok (s, needTermination, some ⟨none, .ServerInternalError⟩)
      else
        .ok (s, needTermination, some
          ⟨some ("`" ++ req.cmd ++ "` command required 1 argument, provided " ++
            toString req.argument.length), .InvalidArguments⟩)
    else if req.cmd = "KILL" then
      if req.argument.isEmpty then
        .ok (s, true, some ⟨none, .Success⟩)
      else
        .ok (s, needTermination, some
          ⟨some ("`KILL` command required 0 argument, provided " ++
            toString req.argument.length), .InvalidArguments⟩)
    else
      .ok (s, needTermination, some ⟨none, .InvalidCommand⟩)

/-- `KvsServer::start` (server.rs lines 74-81) over a finite list of
accepted connections: handle each stream with `?` (an error of
`handle_stream` terminates the loop as an error of `start`), and stop
accepting once `need_termination` is set.  Returns the final backend
state and the replies sent. -/
def start {σ : Type} (E : KvsEngineM σ) (s : σ) (needTermination : Bool) :
    List (Option KvsCmdRequest) →
    Except KvsError (σ × List (Option KvsServerReply))
  | [] => .ok (s, [])
  | request :: rest =>
    match handle_stream E s needTermination request with
    | .error e => .error e
    | .ok (s', term', reply) =>
      if term' then .ok (s', [reply])
      else
        match start E s' term' rest with
        | .error e => .error e
        | .ok (s'', replies) => .ok (s'', reply :: replies)

end KvsServer

/-! ### The client (`src/kvs/client.rs`)

Each call sends one request and maps the status of the received reply to
an outcome; the functions below take the received reply as an argument
(the TCP exchange in `send_and_fetch` is outside the model). -/

namespace KvsClient

/-- `KvsClient::set` (client.rs lines 30-41), status mapping. -/
def set (key value : String) (reply : KvsServerReply) : Except KvsError Unit :=
  match reply.status with
  | .Success => .ok ()
  | .KeyNotFound => .error (.KeyNotExist key)
  | _ => .error .ServerError

/-- `KvsClient::get` (client.rs lines 44-54), status mapping: only
`Success` is special-cased; every other status, `KeyNotFound` included,
maps to `ServerError`. -/
def get (key : String) (reply : KvsServerReply) : Except KvsError (Option String) :=
  match reply.status with
  | .Success => .ok reply.result
  | _ => .error .ServerError

/-- `KvsClient::remove` (client.rs lines 57-68), status mapping. -/
def remove (key : String) (reply : KvsServerReply) : Except KvsError Unit :=
  match reply.status with
  | .Success => .ok ()
  | .KeyNotFound => .error (.KeyNotExist key)
  | _ => .error .ServerError

end KvsClient

/-! ### Sequential operation sequences and the specification-side replay

For claim C1: a sequence of `set`/`remove` calls is executed on an engine
opened from a fresh path; the specification side replays the sequence on
a plain map of keys to values. -/

/-- One engine call in a sequence. -/
inductive Op where
  | set (key value : String)
  | remove (key : String)
  deriving DecidableEq, Repr

/-- Execute one call on the engine state, exactly as the Rust methods do:
`remove` of an absent key returns `KeyNotExist` before writing anything;
a compaction error after a successful append leaves the appended state
(the scan fails before the file is touched). -/
def runOp (s : KvStoreState) : Op → KvStoreState
  | .set k v =>
    let s1 := KvStore.writeback (.SET k v) s
    match KvStore.check_compaction s1 with
    | .ok s2 => s2
    | .error _ => s1
  | .remove k =>
    match lookupAL k s.index with
    | none => s
    | some _ =>
      let s1 := KvStore.writeback (.DELETE k) s
      match KvStore.check_compaction s1 with
      | .ok s2 => s2
      | .error _ => s1

/-- Engine state after running a sequence from a fresh open. -/
def run (ops : List Op) : KvStoreState :=
  ops.foldl runOp KvStore.openFresh

/-- Specification-side effect of one call on the abstract map. -/
def specApply (m : String → Option String) : Op → String → Option String
  | .set k v => fun k0 => if k0 = k then some v else m k0
  | .remove k => fun k0 => if k0 = k then none else m k0

/-- Specification-side replay: the value of `k` is that of the most
recent `set(k, v)` not followed by a `remove(k)`, or `none`. -/
def specRun (ops : List Op) : String → Option String :=
  ops.foldl specApply (fun _ => none)

/-- Refinement invariant between an engine state and the abstract map it
represents: every index entry points at a `SET` record of its own key
holding the abstract value, keys absent from the index are absent from
the map, every record of the file lies below `db_offset`, and the index
has no duplicate keys. -/
def Inv (s : KvStoreState) (m : String → Option String) : Prop :=
  (∀ k o, lookupAL k s.index = some o →
    ∃ v, lookupAL o s.log = some (KvsEntries.SET k v) ∧ m k = some v)
  ∧ (∀ k, lookupAL k s.index = none → m k = none)
  ∧ (∀ p ∈ s.log, p.1 < s.dbOffset)
  ∧ (s.index.map Prod.fst).Nodup

/-- The abstract map after the compaction rewrite: the collected entries
override the map represented by the index accumulator. -/
def overrideAL (entries : List (String × String)) (m0 : String → Option String)
    (k : String) : Option String :=
  match lookupAL k entries with
  | some v => some v
  | none => m0 k

/-- A state triggering compaction: one live key, file grown to 40000
bytes (≥ the 32768 threshold). -/
def compactionInput : KvStoreState :=
  { index := [("a", 91)]
    log := [(91, .SET "a" "b")]
    dbOffset := 40000
    nextCompactionSize := 32768 }

/-- The state `compaction` produces from `compactionInput`: the single
live record is rewritten right after the header (offset 91, 33 bytes),
so the new end of file is 124 — but `next_compaction_size` is set to
`max(40000 × 2, 32768)`, from the pre-compaction offset. -/
def compactionOutput : KvStoreState :=
  { index := [("a", 91)]
    log := [(91, .SET "a" "b")]
    dbOffset := 124
    nextCompactionSize := 80000 }

/-- A state whose index points at a tombstone: offset 100 holds a
`DELETE` record, not a `SET`. -/
def staleIndexInput : KvStoreState :=
  { index := [("a", 100)]
    log := [(100, .DELETE "a")]
    dbOffset := 40000
    nextCompactionSize := 32768 }

/-- A trivial in-memory backend used to instantiate the server theorems:
`get` always misses, mutations succeed without effect. -/
def emptyEngine : KvsEngineM Unit :=
  { set := fun s _ _ => .ok s
    get := fun _ _ => .ok none
    remove := fun s _ => .ok s }

/-- A backend whose operations all fail with `InvalidDataEntry`, used to
instantiate C10. -/
def failingEngine : KvsEngineM Unit :=
  { set := fun _ _ _ => .error .InvalidDataEntry
    get := fun _ _ => .error .InvalidDataEntry
    remove := fun _ _ => .error .InvalidDataEntry }

/-! ## Claims -/

theorem entrySize_pos (e : KvsEntries) : 0 < entrySize e := by
  cases e <;> simp only [entrySize] <;> omega

theorem lookupAL_insert_self {κ α : Type} [DecidableEq κ] (k : κ) (v : α)
    (l : List (κ × α)) : lookupAL k (insertAL k v l) = some v := by
  induction l with
  | nil => simp [insertAL, lookupAL]
  | cons p t ih =>
    obtain ⟨k', v'⟩ := p
    by_cases h : k' = k <;> simp [insertAL, lookupAL, h, ih]

theorem lookupAL_insert_ne {κ α : Type} [DecidableEq κ] (k k0 : κ) (v : α)
    (l : List (κ × α)) (h : k0 ≠ k) :
    lookupAL k0 (insertAL k v l) = lookupAL k0 l := by
  induction l with
  | nil => simp [insertAL, lookupAL, Ne.symm h]
  | cons p t ih =>
    obtain ⟨k', v'⟩ := p
    by_cases h' : k' = k
    · subst h'
      simp [insertAL, lookupAL, Ne.symm h]
    · by_cases h'' : k' = k0 <;> simp [insertAL, lookupAL, h, h', h'', ih]

theorem lookupAL_eq_none_of_not_mem_keys {κ α : Type} [DecidableEq κ]
    (k : κ) (l : List (κ × α)) (h : k ∉ l.map Prod.fst) :
    lookupAL k l = none := by
  induction l with
  | nil => rfl
  | cons p t ih =>
    obtain ⟨k', v'⟩ := p
    simp only [List.map_cons, List.mem_cons] at h
    push_neg at h
    simp [lookupAL, Ne.symm h.1, ih h.2]

theorem mem_of_lookupAL_eq_some {κ α : Type} [DecidableEq κ]
    {k : κ} {v : α} {l : List (κ × α)} (h : lookupAL k l = some v) :
    (k, v) ∈ l := by
  induction l with
  | nil => simp [lookupAL] at h
  | cons p t ih =>
    obtain ⟨k', v'⟩ := p
    by_cases h' : k' = k
    · subst h'
      have hv : v' = v := by simpa [lookupAL] using h
      subst hv
      exact List.mem_cons_self _ _
    · simp only [lookupAL, if_neg h'] at h
      exact List.mem_cons_of_mem _ (ih h)

theorem lookupAL_eq_some_of_mem {κ α : Type} [DecidableEq κ]
    {k : κ} {v : α} {l : List (κ × α)} (hnd : (l.map Prod.fst).Nodup)
    (hmem : (k, v) ∈ l) : lookupAL k l = some v := by
  induction l with
  | nil => simp at hmem
  | cons p t ih =>
    obtain ⟨k', v'⟩ := p
    simp only [List.map_cons, List.nodup_cons] at hnd
    rcases List.mem_cons.mp hmem with h | h
    · injection h with h1 h2
      subst h1
      subst h2
      simp [lookupAL]
    · have hk : k' ≠ k := by
        intro h'
        subst h'
        exact hnd.1 (List.mem_map.mpr ⟨(k', v), h, rfl⟩)
      simp [lookupAL, hk, ih hnd.2 h]

theorem removeAL_sublist {κ α : Type} [DecidableEq κ] (k : κ)
    (l : List (κ × α)) : (removeAL k l).Sublist l := by
  induction l with
  | nil => simp [removeAL]
  | cons p t ih =>
    obtain ⟨k', v'⟩ := p
    by_cases h : k' = k
    · rw [removeAL, if_pos h]
      exact List.sublist_cons_self (k', v') t
    · rw [removeAL, if_neg h]
      exact List.Sublist.cons₂ (k', v') ih

theorem nodup_keys_removeAL {κ α : Type} [DecidableEq κ] (k : κ)
    (l : List (κ × α)) (hnd : (l.map Prod.fst).Nodup) :
    ((removeAL k l).map Prod.fst).Nodup :=
  hnd.sublist (List.Sublist.map Prod.fst (removeAL_sublist k l))

theorem not_mem_keys_removeAL {κ α : Type} [DecidableEq κ] (k : κ)
    (l : List (κ × α)) (hnd : (l.map Prod.fst).Nodup) :
    k ∉ (removeAL k l).map Prod.fst := by
  induction l with
  | nil => simp [removeAL]
  | cons p t ih =>
    obtain ⟨k', v'⟩ := p
    simp only [List.map_cons, List.nodup_cons] at hnd
    by_cases h : k' = k
    · subst h
      simp only [removeAL, if_pos rfl]
      exact fun hmem => hnd.1 hmem
    · simp only [removeAL, if_neg h, List.map_cons, List.mem_cons]
      push_neg
      exact ⟨fun h' => h h'.symm, ih hnd.2⟩

theorem lookupAL_remove_self {κ α : Type} [DecidableEq κ] (k : κ)
    (l : List (κ × α)) (hnd : (l.map Prod.fst).Nodup) :
    lookupAL k (removeAL k l) = none :=
  lookupAL_eq_none_of_not_mem_keys k _ (not_mem_keys_removeAL k l hnd)

theorem lookupAL_remove_ne {κ α : Type} [DecidableEq κ] (k k0 : κ)
    (l : List (κ × α)) (h : k0 ≠ k) :
    lookupAL k0 (removeAL k l) = lookupAL k0 l := by
  induction l with
  | nil => simp [removeAL]
  | cons p t ih =>
    obtain ⟨k', v'⟩ := p
    by_cases h' : k' = k
    · subst h'
      simp [removeAL, lookupAL, Ne.symm h, ih]
    · by_cases h'' : k' = k0 <;> simp [removeAL, lookupAL, h, h', h'', ih]

theorem keys_insertAL {κ α : Type} [DecidableEq κ] (k : κ) (v : α)
    (l : List (κ × α)) :
    (insertAL k v l).map Prod.fst =
      if k ∈ l.map Prod.fst then l.map Prod.fst else l.map Prod.fst ++ [k] := by
  induction l with
  | nil => simp [insertAL]
  | cons p t ih =>
    obtain ⟨k', v'⟩ := p
    by_cases h : k' = k
    · subst h
      simp [insertAL]
    · simp only [insertAL, if_neg h, List.map_cons, ih]
      by_cases hmem : k ∈ t.map Prod.fst <;>
        simp [hmem, Ne.symm h]

theorem nodup_keys_insertAL {κ α : Type} [DecidableEq κ] (k : κ) (v : α)
    (l : List (κ × α)) (hnd : (l.map Prod.fst).Nodup) :
    ((insertAL k v l).map Prod.fst).Nodup := by
  rw [keys_insertAL]
  by_cases hmem : k ∈ l.map Prod.fst
  · rw [if_pos hmem]
    exact hnd
  · rw [if_neg hmem]
    exact List.Nodup.append hnd (List.nodup_singleton k)
      (fun a ha hb => hmem ((List.mem_singleton.mp hb) ▸ ha))

/-- Claim C2: `open` is required to reject a non-empty data file whose
header parses but whose `build_number` differs from `BUILD_NUMBER`, with
`IncompatibleDatabaseVersion(found, expected)`.  The code performs no
such check: a header with `build_number = 0` is accepted (first
conjunct evaluates `open`'s header handling at that failing input), and
no execution path of the header handling ever produces
`IncompatibleDatabaseVersion` (second conjunct). -/
theorem c2_open_ignores_build_number :
    (KvStore.openHeader 123 300
        (some { build_number := 0, last_open := 0,
                next_compaction_size := 32768, flags := 0 }) =
      .ok { build_number := 0, last_open := 123,
            next_compaction_size := 32768, flags := 1 })
    ∧ ∀ now fileLen parsed found expected,
        KvStore.openHeader now fileLen parsed ≠
          .error (.IncompatibleDatabaseVersion found expected) := by
  refine ⟨rfl, ?_⟩
  intro now fileLen parsed found expected h
  unfold KvStore.openHeader at h
  by_cases hl : fileLen ≠ 0
  · cases parsed with
    | some hd => simp [hl] at h
    | none => simp [hl] at h
  · simp [hl] at h

/-- Witness for C2: the only open-time header error is
`InvalidDatabaseFormat`; at a concrete input the inequality holds. -/
theorem c2_open_ignores_build_number_witness :
    KvStore.openHeader 7 1 none ≠
      .error (.IncompatibleDatabaseVersion 0 1200) :=
  c2_open_ignores_build_number.2 7 1 none 0 1200

/-- Claim C3: the claimed shortcut (clean session-dirty flag on disk and
a non-empty index file imply the in-memory index is read from the index
file) is unreachable: `open` overwrites `header.flags` with `0x1` before
evaluating the condition, so the decision is `false` for every header
read from disk — in particular for a header left by a clean close
(`flags = 0`, first conjunct) — and `open` always rescans the data
file instead. -/
theorem c3_index_shortcut_never_taken :
    (KvStore.openReadsIndexFile
        { build_number := 1200, last_open := 5,
          next_compaction_size := 32768, flags := 0 } 6 true 128 = false)
    ∧ ∀ (h : KvHeader) (now : Nat) (ex : Bool) (len : Nat),
        KvStore.openReadsIndexFile h now ex len = false := by
  refine ⟨rfl, ?_⟩
  intro h now ex len
  simp [KvStore.openReadsIndexFile]

/-- Claim C8 counterexample: a `GET` reply with status `KeyNotFound` is
mapped by the client to `ServerError`, not to `KeyNotExist(key)` as the
claim states for every call. -/
theorem c8_counterexample :
    KvsClient.get "k" { result := none, status := .KeyNotFound } =
      .error .ServerError ∧
    (Except.error KvsError.ServerError : Except KvsError (Option String)) ≠
      .error (.KeyNotExist "k") := by
  refine ⟨rfl, ?_⟩
  simp

/-- Claim C8 (amended): `set` and `remove` map `Success` to `Ok`,
`KeyNotFound` to `KeyNotExist(key)` and any other status to
`ServerError`; `get` maps `Success` to `Ok(result)` and every other
status — `KeyNotFound` included — to `ServerError`. -/
theorem c8_amended_status_mapping (key value : String) (r : KvsServerReply) :
    (r.status = .Success →
      KvsClient.set key value r = .ok () ∧
      KvsClient.remove key r = .ok () ∧
      KvsClient.get key r = .ok r.result)
    ∧ (r.status = .KeyNotFound →
      KvsClient.set key value r = .error (.KeyNotExist key) ∧
      KvsClient.remove key r = .error (.KeyNotExist key) ∧
      KvsClient.get key r = .error .ServerError)
    ∧ (r.status ≠ .Success → r.status ≠ .KeyNotFound →
      KvsClient.set key value r = .error .ServerError ∧
      KvsClient.remove key r = .error .ServerError)
    ∧ (r.status ≠ .Success → KvsClient.get key r = .error .ServerError) := by
  obtain ⟨res, st⟩ := r
  cases st <;>
    simp [KvsClient.set, KvsClient.get, KvsClient.remove]

/-- Witness for C8: the mapping evaluated on concrete replies. -/
theorem c8_amended_status_mapping_witness :
    KvsClient.get "k" { result := some "v", status := .Success } =
      .ok (some "v") ∧
    KvsClient.set "k" "v" { result := none, status := .KeyNotFound } =
      .error (.KeyNotExist "k") := by
  have h1 := (c8_amended_status_mapping "k" "v"
    { result := some "v", status := .Success }).1 rfl
  have h2 := (c8_amended_status_mapping "k" "v"
    { result := none, status := .KeyNotFound }).2.1 rfl
  exact ⟨h1.2.2, h2.1⟩

/-- Claim C9: when the received bytes do not parse as a `KvsCmdRequest`
the body of `if let Ok(request)` is skipped: no reply is sent and
`handle_stream` returns `Ok(())` with the backend state and termination
flag untouched. -/
theorem c9_unparsed_request_silently_dropped {σ : Type} (E : KvsEngineM σ)
    (s : σ) (b : Bool) :
    KvsServer.handle_stream E s b none = .ok (s, b, none) :=
  rfl

/-- Claim C4 counterexample: after this completed compaction,
`next_compaction_size = 80000 ≠ max(new_db_offset × 2, 32768) = 32768`,
because store.rs:221 reads `self.db_offset` before line 225 resets it. -/
theorem c4_counterexample :
    KvStore.compaction compactionInput = .ok compactionOutput ∧
    compactionOutput.nextCompactionSize ≠
      max (compactionOutput.dbOffset * 2) MIN_COMPACTION_THRESHOLD := by
  refine ⟨rfl, ?_⟩
  decide

/-- Claim C4 (amended): at the end of every completed compaction,
`next_compaction_size = max(old_db_offset × 2, 32768)` where
`old_db_offset` is the pre-compaction end-of-file offset. -/
theorem c4_threshold_from_pre_compaction_size (s s' : KvStoreState)
    (h1 : s.nextCompactionSize ≤ s.dbOffset)
    (h2 : KvStore.compaction s = .ok s') :
    s'.nextCompactionSize = max (s.dbOffset * 2) MIN_COMPACTION_THRESHOLD := by
  unfold KvStore.compaction at h2
  rw [if_neg (by omega)] at h2
  cases hc : KvStore.collectEntries s.log [] s.index with
  | error e => rw [hc] at h2; cases h2
  | ok entries =>
    rw [hc] at h2
    cases h2
    rfl

/-- Witness for C4 (amended): the threshold after the concrete
compaction equals twice the pre-compaction offset. -/
theorem c4_threshold_from_pre_compaction_size_witness :
    compactionInput.nextCompactionSize ≤ compactionInput.dbOffset ∧
    compactionOutput.nextCompactionSize =
      max (compactionInput.dbOffset * 2) MIN_COMPACTION_THRESHOLD :=
  ⟨by decide,
   c4_threshold_from_pre_compaction_size compactionInput compactionOutput
     (by decide) rfl⟩

/-- Claim C5: the index update of `writeback` at reserved offset
`o_new = db_offset` follows the monotonic-offset rule.  A `SET` leaves
the entry at a strictly larger existing offset and otherwise points it at
`o_new`; a `DELETE` leaves the entry at a strictly larger existing offset
and otherwise removes it; entries of other keys never change. -/
theorem c5_monotonic_index_update (s : KvStoreState) (k v : String)
    (hnd : (s.index.map Prod.fst).Nodup) :
    (lookupAL k (KvStore.writeback (.SET k v) s).index =
      match lookupAL k s.index with
      | some o_ => if o_ > s.dbOffset then some o_ else some s.dbOffset
      | none => some s.dbOffset)
    ∧ (lookupAL k (KvStore.writeback (.DELETE k) s).index =
      match lookupAL k s.index with
      | some o_ => if o_ > s.dbOffset then some o_ else none
      | none => none)
    ∧ (∀ k', k' ≠ k →
      lookupAL k' (KvStore.writeback (.SET k v) s).index = lookupAL k' s.index ∧
      lookupAL k' (KvStore.writeback (.DELETE k) s).index = lookupAL k' s.index) := by
  refine ⟨?_, ?_, ?_⟩
  · unfold KvStore.writeback
    cases h : lookupAL k s.index with
    | none => simp [h, lookupAL_insert_self]
    | some o_ =>
      by_cases ho : o_ > s.dbOffset
      · simp [h, ho]
      · simp [h, ho, lookupAL_insert_self]
  · unfold KvStore.writeback
    cases h : lookupAL k s.index with
    | none => simp [h, lookupAL_remove_self k s.index hnd]
    | some o_ =>
      by_cases ho : o_ > s.dbOffset
      · simp [h, ho]
      · simp [h, ho, lookupAL_remove_self k s.index hnd]
  · intro k' hk
    constructor
    · unfold KvStore.writeback
      cases h : lookupAL k s.index with
      | none => simp [h, lookupAL_insert_ne k k' s.dbOffset s.index hk]
      | some o_ =>
        by_cases ho : o_ > s.dbOffset
        · simp [h, ho]
        · simp [h, ho, lookupAL_insert_ne k k' s.dbOffset s.index hk]
    · unfold KvStore.writeback
      cases h : lookupAL k s.index with
      | none => simp [h, lookupAL_remove_ne k k' s.index hk]
      | some o_ =>
        by_cases ho : o_ > s.dbOffset
        · simp [h, ho]
        · simp [h, ho, lookupAL_remove_ne k k' s.index hk]

/-- Witness for C5: on a state whose entry for "a" sits at offset 100
with `db_offset = 50`, a `SET` of "a" leaves the entry at 100 (the
monotonic rule fires) and the entry of "b" is untouched. -/
theorem c5_monotonic_index_update_witness :
    lookupAL "a" (KvStore.writeback (.SET "a" "x")
      { index := [("a", 100), ("b", 7)], log := [], dbOffset := 50,
        nextCompactionSize := 32768 }).index = some 100 ∧
    lookupAL "b" (KvStore.writeback (.SET "a" "x")
      { index := [("a", 100), ("b", 7)], log := [], dbOffset := 50,
        nextCompactionSize := 32768 }).index = some 7 := by
  have h := c5_monotonic_index_update
    { index := [("a", 100), ("b", 7)], log := [], dbOffset := 50,
      nextCompactionSize := 32768 } "a" "x" (by decide)
  refine ⟨?_, ?_⟩
  · rw [h.1]
    decide
  · rw [(h.2.2 "b" (by decide)).1]
    decide

/-- Claim C6 counterexample: the record parsed at the indexed offset is a
`DELETE`, yet compaction succeeds — dropping "a" from the collected map
and producing an empty database — instead of aborting with
`InvalidDataEntry` as the claim states. -/
theorem c6_counterexample :
    lookupAL 100 staleIndexInput.log = some (KvsEntries.DELETE "a") ∧
    KvStore.compaction staleIndexInput =
      .ok { index := [], log := [], dbOffset := HEADER_SIZE,
            nextCompactionSize := 80000 } :=
  ⟨rfl, rfl⟩

/-- Claim C6 (amended): during the compaction scan, a record that parses
as a `SET` with a key other than the indexed key aborts with
`InvalidDataEntry`; a record that fails to parse or parses as a `DELETE`
is silently skipped, dropping the key from the collected map; a `SET`
with the matching key is collected. -/
theorem c6_scan_skips_non_set_records (log : List (Nat × KvsEntries))
    (acc : List (String × String)) (k : String) (o : Nat)
    (rest : List (String × Nat)) :
    (lookupAL o log = none →
      KvStore.collectEntries log acc ((k, o) :: rest) =
        KvStore.collectEntries log acc rest)
    ∧ (∀ k', lookupAL o log = some (.DELETE k') →
      KvStore.collectEntries log acc ((k, o) :: rest) =
        KvStore.collectEntries log acc rest)
    ∧ (∀ k' v, lookupAL o log = some (.SET k' v) → k' ≠ k →
      KvStore.collectEntries log acc ((k, o) :: rest) =
        .error .InvalidDataEntry)
    ∧ (∀ v, lookupAL o log = some (.SET k v) →
      KvStore.collectEntries log acc ((k, o) :: rest) =
        KvStore.collectEntries log (insertAL k v acc) rest) := by
  refine ⟨?_, ?_, ?_, ?_⟩
  · intro h
    simp [KvStore.collectEntries, h]
  · intro k' h
    simp [KvStore.collectEntries, h]
  · intro k' v h hk
    simp [KvStore.collectEntries, h, hk]
  · intro v h
    simp [KvStore.collectEntries, h]

/-- Witness for C6 (amended): a tombstone at the scanned offset is
skipped. -/
theorem c6_scan_skips_non_set_records_witness :
    KvStore.collectEntries [(5, .DELETE "a")] [] [("a", 5)] =
      KvStore.collectEntries [(5, .DELETE "a")] [] [] :=
  (c6_scan_skips_non_set_records [(5, .DELETE "a")] [] "a" 5 []).2.1 "a" rfl

/-- Claim C7: argument-count checking and dispatch in `handle_stream`.
Wrong arity for `GET`, `SET`, `RM`/`REMOVE`/`DELETE` and `KILL` yields
`InvalidArguments` with a description in `result`; an unknown command
yields `InvalidCommand`; correct arity dispatches to the backend and a
successful backend call is reported as `Success`, with a `GET` hit
carrying the value in `result` and a `GET` miss carrying `None`. -/
theorem c7_arity_and_dispatch {σ : Type} (E : KvsEngineM σ) (s : σ) (b : Bool)
    (args : List String) (k v : String) (s' : σ) :
    (args.length ≠ 1 →
      KvsServer.handle_stream E s b (some ⟨"GET", args⟩) =
        .ok (s, b, some ⟨some ("`GET` command required 1 argument, provided " ++
          toString args.length), .InvalidArguments⟩))
    ∧ (args.length ≠ 2 →
      KvsServer.handle_stream E s b (some ⟨"SET", args⟩) =
        .ok (s, b, some ⟨some ("`GET` command required 2 argument, provided " ++
          toString args.length), .InvalidArguments⟩))
    ∧ (∀ cmd, (cmd = "RM" ∨ cmd = "REMOVE" ∨ cmd = "DELETE") → args.length ≠ 1 →
      KvsServer.handle_stream E s b (some ⟨cmd, args⟩) =
        .ok (s, b, some ⟨some ("`" ++ cmd ++ "` command required 1 argument, provided " ++
          toString args.length), .InvalidArguments⟩))
    ∧ (args.length ≠ 0 →
      KvsServer.handle_stream E s b (some ⟨"KILL", args⟩) =
        .ok (s, b, some ⟨some ("`KILL` command required 0 argument, provided " ++
          toString args.length), .InvalidArguments⟩))
    ∧ (∀ cmd, cmd ≠ "GET" → cmd ≠ "SET" → cmd ≠ "RM" → cmd ≠ "REMOVE" →
        cmd ≠ "DELETE" → cmd ≠ "KILL" →
      KvsServer.handle_stream E s b (some ⟨cmd, args⟩) =
        .ok (s, b, some ⟨none, .InvalidCommand⟩))
    ∧ (E.get s k = .ok (some v) →
      KvsServer.handle_stream E s b (some ⟨"GET", [k]⟩) =
        .ok (s, b, some ⟨some v, .Success⟩))
    ∧ (E.get s k = .ok none →
      KvsServer.handle_stream E s b (some ⟨"GET", [k]⟩) =
        .ok (s, b, some ⟨none, .Success⟩))
    ∧ (E.set s k v = .ok s' →
      KvsServer.handle_stream E s b (some ⟨"SET", [k, v]⟩) =
        .ok (s', b, some ⟨none, .Success⟩))
    ∧ (∀ cmd, (cmd = "RM" ∨ cmd = "REMOVE" ∨ cmd = "DELETE") →
        E.remove s k = .ok s' →
      KvsServer.handle_stream E s b (some ⟨cmd, [k]⟩) =
        .ok (s', b, some ⟨none, .Success⟩))
    ∧ KvsServer.handle_stream E s b (some ⟨"KILL", []⟩) =
        .ok (s, true, some ⟨none, .Success⟩) := by
  refine ⟨?_, ?_, ?_, ?_, ?_, ?_, ?_, ?_, ?_, ?_⟩
  · intro h
    simp [KvsServer.handle_stream, h]
  · intro h
    simp [KvsServer.handle_stream, h]
  · intro cmd hcmd h
    rcases hcmd with rfl | rfl | rfl <;> simp [KvsServer.handle_stream, h]
  · intro h
    have h' : args ≠ [] := fun he => h (by simp [he])
    simp [KvsServer.handle_stream, h, List.isEmpty_iff, h']
  · intro cmd h1 h2 h3 h4 h5 h6
    simp [KvsServer.handle_stream, h1, h2, h3, h4, h5, h6]
  · intro h
    simp [KvsServer.handle_stream, h]
  · intro h
    simp [KvsServer.handle_stream, h]
  · intro h
    simp [KvsServer.handle_stream, h]
  · intro cmd hcmd h
    rcases hcmd with rfl | rfl | rfl <;> simp [KvsServer.handle_stream, h]
  · simp [KvsServer.handle_stream]

/-- Witness for C7: a `GET` for a missing key is answered
`{result: None, status: Success}`, and an unknown command is answered
`InvalidCommand`. -/
theorem c7_arity_and_dispatch_witness :
    KvsServer.handle_stream emptyEngine () false (some ⟨"GET", ["missing"]⟩) =
      .ok ((), false, some ⟨none, .Success⟩) ∧
    KvsServer.handle_stream emptyEngine () false (some ⟨"FOO", []⟩) =
      .ok ((), false, some ⟨none, .InvalidCommand⟩) :=
  ⟨(c7_arity_and_dispatch emptyEngine () false ["missing"] "missing" "" ()).2.2.2.2.2.2.1 rfl,
   (c7_arity_and_dispatch emptyEngine () false [] "k" "v" ()).2.2.2.2.1 "FOO"
     (by decide) (by decide) (by decide) (by decide) (by decide) (by decide)⟩

/-- Claim C10: a backend error during a well-formed `GET` becomes an
error of `handle_stream` (the `?` operator) with no reply sent, and
through `start`'s `?` it terminates the accept loop; the same backend
error during `SET` or `RM`/`REMOVE`/`DELETE` is caught and answered as
`KeyNotFound` (for `KeyNotExist`) or `ServerInternalError`. -/
theorem c10_get_error_escapes_server {σ : Type} (E : KvsEngineM σ) (s : σ)
    (b : Bool) (k v : String) (err : KvsError)
    (rest : List (Option KvsCmdRequest)) :
    (E.get s k = .error err →
      KvsServer.handle_stream E s b (some ⟨"GET", [k]⟩) = .error err ∧
      KvsServer.start E s b (some ⟨"GET", [k]⟩ :: rest) = .error err)
    ∧ (E.set s k v = .error err →
      KvsServer.handle_stream E s b (some ⟨"SET", [k, v]⟩) =
        .ok (s, b, some ⟨none,
          match err with
          | .KeyNotExist _ => .KeyNotFound
          | _ => .ServerInternalError⟩))
    ∧ (E.remove s k = .error err →
      KvsServer.handle_stream E s b (some ⟨"RM", [k]⟩) =
        .ok (s, b, some ⟨none,
          match err with
          | .KeyNotExist _ => .KeyNotFound
          | _ => .ServerInternalError⟩)) := by
  refine ⟨?_, ?_, ?_⟩
  · intro h
    have h1 : KvsServer.handle_stream E s b (some ⟨"GET", [k]⟩) = .error err := by
      simp [KvsServer.handle_stream, h]
    refine ⟨h1, ?_⟩
    simp [KvsServer.start, h1]
  · intro h
    cases err <;> simp [KvsServer.handle_stream, h]
  · intro h
    cases err <;> simp [KvsServer.handle_stream, h]

/-- Witness for C10: with a backend whose `get` fails, the server's
accept loop dies with the backend error, while the same failure of `set`
is answered `ServerInternalError`. -/
theorem c10_get_error_escapes_server_witness :
    KvsServer.start failingEngine () false
      [some ⟨"GET", ["k"]⟩, some ⟨"GET", ["k2"]⟩] = .error .InvalidDataEntry ∧
    KvsServer.handle_stream failingEngine () false (some ⟨"SET", ["k", "v"]⟩) =
      .ok ((), false, some ⟨none, .ServerInternalError⟩) :=
  ⟨((c10_get_error_escapes_server failingEngine () false "k" "v"
      .InvalidDataEntry [some ⟨"GET", ["k2"]⟩]).1 rfl).2,
   (c10_get_error_escapes_server failingEngine () false "k" "v"
      .InvalidDataEntry []).2.1 rfl⟩

/-! ### Refinement of the sequential engine (claim C1) -/

theorem lookupAL_append_of_some {κ α : Type} [DecidableEq κ] {k : κ} {x : α}
    {l1 l2 : List (κ × α)} (h : lookupAL k l1 = some x) :
    lookupAL k (l1 ++ l2) = some x := by
  induction l1 with
  | nil => simp [lookupAL] at h
  | cons p t ih =>
    obtain ⟨k', v'⟩ := p
    by_cases h' : k' = k
    · simp only [lookupAL, if_pos h'] at h
      simp [lookupAL, h', h]
    · simp only [lookupAL, if_neg h'] at h
      simp only [List.cons_append, lookupAL, if_neg h']
      exact ih h

theorem lookupAL_append_of_none {κ α : Type} [DecidableEq κ] {k : κ}
    {l1 l2 : List (κ × α)} (h : lookupAL k l1 = none) :
    lookupAL k (l1 ++ l2) = lookupAL k l2 := by
  induction l1 with
  | nil => simp
  | cons p t ih =>
    obtain ⟨k', v'⟩ := p
    by_cases h' : k' = k
    · simp [lookupAL, h'] at h
    · simp only [lookupAL, if_neg h'] at h
      simp only [List.cons_append, lookupAL, if_neg h']
      exact ih h

theorem Inv_ext {s : KvStoreState} {m m' : String → Option String}
    (hInv : Inv s m) (h : ∀ k, m k = m' k) : Inv s m' := by
  obtain ⟨h1, h2, h3, h4⟩ := hInv
  refine ⟨?_, ?_, h3, h4⟩
  · intro k o ho
    obtain ⟨v, hv, hm⟩ := h1 k o ho
    exact ⟨v, hv, (h k) ▸ hm⟩
  · intro k hk
    exact (h k) ▸ h2 k hk

theorem index_offset_lt_of_Inv {s : KvStoreState} {m : String → Option String}
    (hInv : Inv s m) {k : String} {o : Nat}
    (h : lookupAL k s.index = some o) : o < s.dbOffset := by
  obtain ⟨h1, _, h3, _⟩ := hInv
  obtain ⟨v, hv, _⟩ := h1 k o h
  exact h3 (o, .SET k v) (mem_of_lookupAL_eq_some hv)

theorem log_lookup_dbOffset_none {s : KvStoreState} {m : String → Option String}
    (hInv : Inv s m) : lookupAL s.dbOffset s.log = none := by
  apply lookupAL_eq_none_of_not_mem_keys
  intro hmem
  obtain ⟨p, hp, he⟩ := List.mem_map.mp hmem
  have := hInv.2.2.1 p hp
  omega

theorem fetch_eq_of_Inv {s : KvStoreState} {m : String → Option String}
    (hInv : Inv s m) (k : String) : KvStore.fetch k s = .ok (m k) := by
  obtain ⟨h1, h2, h3, h4⟩ := hInv
  cases hk : lookupAL k s.index with
  | none => simp [KvStore.fetch, hk, h2 k hk]
  | some o =>
    obtain ⟨v, hv, hm⟩ := h1 k o hk
    simp [KvStore.fetch, hk, hv, hm]

theorem openFresh_Inv : Inv KvStore.openFresh (fun _ => none) := by
  refine ⟨?_, ?_, ?_, ?_⟩
  · intro k o h
    simp [KvStore.openFresh, lookupAL] at h
  · intro k _
    rfl
  · intro p hp
    simp [KvStore.openFresh] at hp
  · simp [KvStore.openFresh]

theorem writeback_SET_Inv {s : KvStoreState} {m : String → Option String}
    (hInv : Inv s m) (k v : String) :
    Inv (KvStore.writeback (.SET k v) s)
      (fun k0 => if k0 = k then some v else m k0) := by
  obtain ⟨h1, h2, h3, h4⟩ := hInv
  have hidx : (KvStore.writeback (.SET k v) s).index =
      insertAL k s.dbOffset s.index := by
    unfold KvStore.writeback
    cases hk : lookupAL k s.index with
    | none => simp [hk]
    | some o_ =>
      have hlt : o_ < s.dbOffset :=
        index_offset_lt_of_Inv ⟨h1, h2, h3, h4⟩ hk
      simp [hk, Nat.not_lt.mpr (Nat.le_of_lt hlt)]
  have hlog : (KvStore.writeback (.SET k v) s).log =
      s.log ++ [(s.dbOffset, .SET k v)] := rfl
  have hdb : (KvStore.writeback (.SET k v) s).dbOffset =
      s.dbOffset + entrySize (.SET k v) := rfl
  refine ⟨?_, ?_, ?_, ?_⟩
  · intro k0 o0 h
    rw [hidx] at h
    rw [hlog]
    by_cases hk0 : k0 = k
    · subst hk0
      rw [lookupAL_insert_self] at h
      injection h with h
      subst h
      refine ⟨v, ?_, by simp⟩
      rw [lookupAL_append_of_none (log_lookup_dbOffset_none ⟨h1, h2, h3, h4⟩)]
      simp [lookupAL]
    · rw [lookupAL_insert_ne _ _ _ _ hk0] at h
      obtain ⟨v0, hv0, hm0⟩ := h1 k0 o0 h
      exact ⟨v0, lookupAL_append_of_some hv0, by simp [hk0, hm0]⟩
  · intro k0 h
    rw [hidx] at h
    by_cases hk0 : k0 = k
    · subst hk0
      rw [lookupAL_insert_self] at h
      cases h
    · rw [lookupAL_insert_ne _ _ _ _ hk0] at h
      simp [hk0, h2 k0 h]
  · intro p hp
    rw [hlog] at hp
    rw [hdb]
    rcases List.mem_append.mp hp with h | h
    · have := h3 p h
      omega
    · simp only [List.mem_singleton] at h
      subst h
      have := entrySize_pos (KvsEntries.SET k v)
      simp
      omega
  · rw [hidx]
    exact nodup_keys_insertAL _ _ _ h4

theorem writeback_DELETE_Inv {s : KvStoreState} {m : String → Option String}
    (hInv : Inv s m) (k : String) :
    Inv (KvStore.writeback (.DELETE k) s)
      (fun k0 => if k0 = k then none else m k0) := by
  obtain ⟨h1, h2, h3, h4⟩ := hInv
  have hidx : (KvStore.writeback (.DELETE k) s).index =
      removeAL k s.index := by
    unfold KvStore.writeback
    cases hk : lookupAL k s.index with
    | none => simp [hk]
    | some o_ =>
      have hlt : o_ < s.dbOffset :=
        index_offset_lt_of_Inv ⟨h1, h2, h3, h4⟩ hk
      simp [hk, Nat.not_lt.mpr (Nat.le_of_lt hlt)]
  have hlog : (KvStore.writeback (.DELETE k) s).log =
      s.log ++ [(s.dbOffset, .DELETE k)] := rfl
  have hdb : (KvStore.writeback (.DELETE k) s).dbOffset =
      s.dbOffset + entrySize (.DELETE k) := rfl
  refine ⟨?_, ?_, ?_, ?_⟩
  · intro k0 o0 h
    rw [hidx] at h
    rw [hlog]
    by_cases hk0 : k0 = k
    · subst hk0
      rw [lookupAL_remove_self _ _ h4] at h
      cases h
    · rw [lookupAL_remove_ne _ _ _ hk0] at h
      obtain ⟨v0, hv0, hm0⟩ := h1 k0 o0 h
      exact ⟨v0, lookupAL_append_of_some hv0, by simp [hk0, hm0]⟩
  · intro k0 h
    by_cases hk0 : k0 = k
    · simp [hk0]
    · rw [hidx, lookupAL_remove_ne _ _ _ hk0] at h
      simp [hk0, h2 k0 h]
  · intro p hp
    rw [hlog] at hp
    rw [hdb]
    rcases List.mem_append.mp hp with h | h
    · have := h3 p h
      omega
    · simp only [List.mem_singleton] at h
      subst h
      have := entrySize_pos (KvsEntries.DELETE k)
      simp
      omega
  · rw [hidx]
    exact nodup_keys_removeAL _ _ h4

theorem collectEntries_spec (log : List (Nat × KvsEntries))
    (m : String → Option String) (idx : List (String × Nat))
    (acc : List (String × String))
    (h1 : ∀ k o, (k, o) ∈ idx →
      ∃ v, lookupAL o log = some (KvsEntries.SET k v) ∧ m k = some v)
    (hnd : (idx.map Prod.fst).Nodup) :
    ∃ r, KvStore.collectEntries log acc idx = .ok r ∧
      (∀ k, lookupAL k r =
        match lookupAL k idx with
        | some _ => m k
        | none => lookupAL k acc) ∧
      ((acc.map Prod.fst).Nodup → (r.map Prod.fst).Nodup) := by
  induction idx generalizing acc with
  | nil => exact ⟨acc, rfl, fun k => by simp [lookupAL], fun h => h⟩
  | cons p t ih =>
    obtain ⟨k, o⟩ := p
    obtain ⟨v, hv, hm⟩ := h1 k o (List.mem_cons_self _ _)
    simp only [List.map_cons, List.nodup_cons] at hnd
    obtain ⟨r, hr, hlook, hndr⟩ := ih (insertAL k v acc)
      (fun k0 o0 h0 => h1 k0 o0 (List.mem_cons_of_mem _ h0)) hnd.2
    refine ⟨r, ?_, ?_, fun hacc => hndr (nodup_keys_insertAL _ _ _ hacc)⟩
    · simpa [KvStore.collectEntries, hv] using hr
    · intro k0
      by_cases hk0 : k0 = k
      · subst hk0
        have ht : lookupAL k0 t = none :=
          lookupAL_eq_none_of_not_mem_keys _ _ hnd.1
        rw [hlook k0, ht]
        simp [lookupAL, lookupAL_insert_self, hm]
      · have hc : lookupAL k0 ((k, o) :: t) = lookupAL k0 t := by
          simp [lookupAL, Ne.symm hk0]
        rw [hlook k0, lookupAL_insert_ne _ _ _ _ hk0, hc]

theorem rewriteEntries_spec (entries : List (String × String))
    (idx0 : List (String × Nat)) (log0 : List (Nat × KvsEntries)) (off0 : Nat)
    (m0 : String → Option String)
    (hA : ∀ k o, lookupAL k idx0 = some o →
      ∃ v, lookupAL o log0 = some (KvsEntries.SET k v) ∧ m0 k = some v)
    (hB : ∀ k, lookupAL k idx0 = none → m0 k = none)
    (hC : ∀ p ∈ log0, p.1 < off0)
    (hD : (idx0.map Prod.fst).Nodup)
    (hE : (entries.map Prod.fst).Nodup) :
    (∀ k o, lookupAL k (KvStore.rewriteEntries idx0 log0 off0 entries).1 = some o →
      ∃ v, lookupAL o (KvStore.rewriteEntries idx0 log0 off0 entries).2.1 =
          some (KvsEntries.SET k v) ∧ overrideAL entries m0 k = some v)
    ∧ (∀ k, lookupAL k (KvStore.rewriteEntries idx0 log0 off0 entries).1 = none →
      overrideAL entries m0 k = none)
    ∧ (∀ p ∈ (KvStore.rewriteEntries idx0 log0 off0 entries).2.1,
      p.1 < (KvStore.rewriteEntries idx0 log0 off0 entries).2.2)
    ∧ ((KvStore.rewriteEntries idx0 log0 off0 entries).1.map Prod.fst).Nodup := by
  induction entries generalizing idx0 log0 off0 m0 with
  | nil =>
    refine ⟨?_, ?_, hC, hD⟩
    · intro k o h
      obtain ⟨v, hv, hm⟩ := hA k o h
      exact ⟨v, hv, by simpa [overrideAL, lookupAL] using hm⟩
    · intro k h
      simpa [overrideAL, lookupAL] using hB k h
  | cons p t ih =>
    obtain ⟨k, v⟩ := p
    simp only [List.map_cons, List.nodup_cons] at hE
    have hnone : lookupAL off0 log0 = none := by
      apply lookupAL_eq_none_of_not_mem_keys
      intro hmem
      obtain ⟨q, hq, he⟩ := List.mem_map.mp hmem
      have := hC q hq
      omega
    have hA1 : ∀ k0 o0, lookupAL k0 (insertAL k off0 idx0) = some o0 →
        ∃ v0, lookupAL o0 (log0 ++ [(off0, KvsEntries.SET k v)]) =
            some (KvsEntries.SET k0 v0) ∧
          (fun kk => if kk = k then some v else m0 kk) k0 = some v0 := by
      intro k0 o0 h
      by_cases hk0 : k0 = k
      · subst hk0
        rw [lookupAL_insert_self] at h
        injection h with h
        subst h
        refine ⟨v, ?_, by simp⟩
        rw [lookupAL_append_of_none hnone]
        simp [lookupAL]
      · rw [lookupAL_insert_ne _ _ _ _ hk0] at h
        obtain ⟨v0, hv0, hm0⟩ := hA k0 o0 h
        exact ⟨v0, lookupAL_append_of_some hv0, by simp [hk0, hm0]⟩
    have hB1 : ∀ k0, lookupAL k0 (insertAL k off0 idx0) = none →
        (fun kk => if kk = k then some v else m0 kk) k0 = none := by
      intro k0 h
      by_cases hk0 : k0 = k
      · subst hk0
        rw [lookupAL_insert_self] at h
        cases h
      · rw [lookupAL_insert_ne _ _ _ _ hk0] at h
        simp [hk0, hB k0 h]
    have hC1 : ∀ q ∈ log0 ++ [(off0, KvsEntries.SET k v)],
        q.1 < off0 + entrySize (KvsEntries.SET k v) := by
      intro q hq
      rcases List.mem_append.mp hq with h | h
      · have := hC q h
        omega
      · simp only [List.mem_singleton] at h
        subst h
        have := entrySize_pos (KvsEntries.SET k v)
        simp
        omega
    have hov : ∀ k0, overrideAL t (fun kk => if kk = k then some v else m0 kk) k0 =
        overrideAL ((k, v) :: t) m0 k0 := by
      intro k0
      by_cases hk0 : k0 = k
      · subst hk0
        have ht : lookupAL k0 t = none :=
          lookupAL_eq_none_of_not_mem_keys _ _ hE.1
        simp [overrideAL, lookupAL, ht]
      · simp [overrideAL, lookupAL, Ne.symm hk0, hk0]
    have hstep : KvStore.rewriteEntries idx0 log0 off0 ((k, v) :: t) =
        KvStore.rewriteEntries (insertAL k off0 idx0)
          (log0 ++ [(off0, KvsEntries.SET k v)])
          (off0 + entrySize (KvsEntries.SET k v)) t := rfl
    obtain ⟨R1, R2, R3, R4⟩ := ih (insertAL k off0 idx0)
      (log0 ++ [(off0, KvsEntries.SET k v)])
      (off0 + entrySize (KvsEntries.SET k v))
      (fun kk => if kk = k then some v else m0 kk)
      hA1 hB1 hC1 (nodup_keys_insertAL _ _ _ hD) hE.2
    rw [hstep]
    refine ⟨?_, ?_, R3, R4⟩
    · intro k0 o0 h
      obtain ⟨v0, hv0, hm0⟩ := R1 k0 o0 h
      exact ⟨v0, hv0, (hov k0) ▸ hm0⟩
    · intro k0 h
      exact (hov k0) ▸ R2 k0 h

theorem compaction_Inv {s : KvStoreState} {m : String → Option String}
    (hInv : Inv s m) :
    ∃ s', KvStore.compaction s = .ok s' ∧ Inv s' m := by
  unfold KvStore.compaction
  by_cases hlt : s.dbOffset < s.nextCompactionSize
  · exact ⟨s, by rw [if_pos hlt], hInv⟩
  · rw [if_neg hlt]
    obtain ⟨h1, h2, h3, h4⟩ := hInv
    obtain ⟨r, hr, hlook, hndr⟩ := collectEntries_spec s.log m s.index []
      (fun k o hmem => h1 k o (lookupAL_eq_some_of_mem h4 hmem)) h4
    rw [hr]
    refine ⟨_, rfl, ?_⟩
    have hrnd : (r.map Prod.fst).Nodup := hndr (by simp)
    obtain ⟨R1, R2, R3, R4⟩ := rewriteEntries_spec r [] [] HEADER_SIZE
      (fun _ => none)
      (by intro k o h; simp [lookupAL] at h)
      (fun k _ => rfl)
      (by simp)
      (by simp)
      hrnd
    refine ⟨?_, ?_, R3, R4⟩
    · intro k o h
      obtain ⟨v, hv, hm⟩ := R1 k o h
      refine ⟨v, hv, ?_⟩
      have hrk : lookupAL k r = some v := by
        revert hm
        unfold overrideAL
        cases lookupAL k r with
        | none => intro h'; cases h'
        | some v' => intro h'; injection h' with h'; rw [h']
      have := hlook k
      rw [hrk] at this
      cases hks : lookupAL k s.index with
      | none => rw [hks] at this; cases this
      | some o' => rw [hks] at this; exact this.symm
    · intro k h
      have hnone := R2 k h
      have hrk : lookupAL k r = none := by
        revert hnone
        unfold overrideAL
        cases lookupAL k r with
        | none => intro _; rfl
        | some v' => intro h'; cases h'
      have := hlook k
      rw [hrk] at this
      cases hks : lookupAL k s.index with
      | none => exact h2 k hks
      | some o' => rw [hks] at this; exact this.symm

theorem check_compaction_Inv {s : KvStoreState} {m : String → Option String}
    (hInv : Inv s m) :
    ∃ s', KvStore.check_compaction s = .ok s' ∧ Inv s' m := by
  unfold KvStore.check_compaction
  by_cases h : s.nextCompactionSize ≤ s.dbOffset
  · rw [if_pos h]
    exact compaction_Inv hInv
  · rw [if_neg h]
    exact ⟨s, rfl, hInv⟩

theorem runOp_Inv {s : KvStoreState} {m : String → Option String}
    (hInv : Inv s m) (op : Op) : Inv (runOp s op) (specApply m op) := by
  cases op with
  | set k v =>
    obtain ⟨s2, he, hi⟩ := check_compaction_Inv (writeback_SET_Inv hInv k v)
    simp only [runOp, he]
    exact hi
  | remove k =>
    cases hk : lookupAL k s.index with
    | none =>
      simp only [runOp, hk]
      refine Inv_ext hInv (fun k0 => ?_)
      by_cases hk0 : k0 = k
      · subst hk0
        simp [specApply, hInv.2.1 k0 hk]
      · simp [specApply, hk0]
    | some o =>
      obtain ⟨s2, he, hi⟩ := check_compaction_Inv (writeback_DELETE_Inv hInv k)
      simp only [runOp, hk, he]
      exact hi

theorem foldl_runOp_Inv (ops : List Op) :
    ∀ (s : KvStoreState) (m : String → Option String), Inv s m →
      Inv (ops.foldl runOp s) (ops.foldl specApply m) := by
  induction ops with
  | nil => exact fun s m h => h
  | cons op t ih =>
    intro s m h
    exact ih _ _ (runOp_Inv h op)

/-- Claim C1: for every sequence of `set`/`remove` calls executed
sequentially on an engine opened from a fresh path, `get(k)` returns
exactly the specification-side replay of the sequence: `Some(v)` of the
most recent `set(k, v)` not followed by a `remove(k)`, and `None` when no
such set exists. -/
theorem c1_sequential_get_semantics (ops : List Op) (k : String) :
    KvStore.get k (run ops) = .ok (specRun ops k) :=
  fetch_eq_of_Inv (foldl_runOp_Inv ops KvStore.openFresh _ openFresh_Inv) k

end Kvs
